import Mathlib

/-!
Verification of the client-side evaluation state engine of the
indicxray-evaluator repository: the score matrix store (`setEvaluation`,
`initAtId`), the case evaluation controller (hydration, edit validation,
submission aggregation) and the remote sync adapter's ground-truth
normalization, shallowly embedded as executable Lean definitions.
-/

namespace IndicXray

/-! ## Score matrix store (stores/evaluation: `setEvaluation`, `initAtId`) -/

/-- A single metric score record as stored in the evaluation store.
Records created by `setEvaluation` carry an empty name and no description
(`{id, name: '', value}`); records created by hydration carry the metric's
name and description.  `value` is `number | null` in the source, embedded
as `Option Int`. -/
structure MetricRecord where
  id : String
  name : String
  description : Option String
  value : Option Int
deriving Repr, DecidableEq

/-- One response slot of a case's score matrix entry: a `responseId`
together with its list of metric records (the `Evaluation` shape of the
store's `LocalEvaluation` values). -/
structure Evaluation where
  responseId : String
  metrics : List MetricRecord
deriving Repr, DecidableEq

/-- The payload of a `setEvaluation` call: `{responseId, metricId, value}`. -/
structure Payload where
  responseId : String
  metricId : String
  value : Option Int
deriving Repr, DecidableEq

/-- The three synthetic response slots `model-1..3` with empty metric
lists, created by `setEvaluation` when no entry exists for the case id
(`Array.from({length: 3}, (_, index) => ({responseId: model-(index+1),
metrics: []}))`). -/
def defaultSlots : List Evaluation :=
  [⟨"model-1", []⟩, ⟨"model-2", []⟩, ⟨"model-3", []⟩]

/-- The metric-level step of `setEvaluation`: find the first record whose
id matches (`findIndex`); if present overwrite its `value` in place, if
absent append a fresh `{id, name: '', value}` record at the end (`push`). -/
def setMetricValue : List MetricRecord → String → Option Int → List MetricRecord
  | [], metricId, v => [⟨metricId, "", none, v⟩]
  | rec :: rest, metricId, v =>
    if rec.id = metricId then { rec with value := v } :: rest
    else rec :: setMetricValue rest metricId v

/-- The response-level step of `setEvaluation`: find the first slot whose
`responseId` matches (`findIndex`); if absent append a new slot holding a
single metric record (`push` and early return), if present update that
slot's metric list via `setMetricValue`. -/
def setResponseSlot : List Evaluation → Payload → List Evaluation
  | [], p => [⟨p.responseId, [⟨p.metricId, "", none, p.value⟩]⟩]
  | ev :: rest, p =>
    if ev.responseId = p.responseId then
      { ev with metrics := setMetricValue ev.metrics p.metricId p.value } :: rest
    else ev :: setResponseSlot rest p

/-- The store's `setEvaluation` action, restricted to the entry of the
case being edited (no other key of the map is touched): if the case has
no entry yet, start from the three synthetic `defaultSlots`, then apply
the edit. -/
def setEvaluation (entry : Option (List Evaluation)) (p : Payload) : List Evaluation :=
  setResponseSlot (entry.getD defaultSlots) p

/-- Read a triple out of an entry the way the UI does: first slot whose
`responseId` matches, then first metric record whose id matches; `none`
when either lookup fails, `some v` with the stored (possibly null) value
otherwise. -/
def lookupTriple (entry : List Evaluation) (r m : String) : Option (Option Int) :=
  match entry.find? (fun ev => ev.responseId == r) with
  | none => none
  | some ev => (ev.metrics.find? (fun rec => rec.id == m)).map (fun rec => rec.value)

/-- Number of metric records for the pair `(r, m)` across all slots of an
entry (counting duplicate slots and duplicate records). -/
def pairCount : List Evaluation → String → String → Nat
  | [], _, _ => 0
  | ev :: rest, r, m =>
    (if ev.responseId == r then ev.metrics.countP (fun rec => rec.id == m) else 0)
      + pairCount rest r m

/-- All `(responseId, metricId)` pairs present in an entry. -/
def pairsOf (entry : List Evaluation) : List (String × String) :=
  entry.flatMap (fun ev => ev.metrics.map (fun rec => (ev.responseId, rec.id)))

/-- Structural well-formedness of a case entry: slot `responseId`s are
pairwise distinct and each slot's metric ids are pairwise distinct. -/
def wfEntry (entry : List Evaluation) : Prop :=
  (entry.map (fun ev => ev.responseId)).Nodup ∧
    ∀ ev ∈ entry, (ev.metrics.map (fun rec => rec.id)).Nodup

/-! ## Heap model for `initAtId`'s deep copy

`initAtId` replaces a case's entry with
`payload.map(model => ({...model, metrics: model.metrics.map(metric => ({...metric}))}))`.
To state the aliasing property (mutating the caller's objects after the
call does not change the stored entry) we model JS object identity with an
explicit heap: response objects and metric-record objects are cells at
natural-number addresses, and the spread operators become fresh
allocations that copy the current field values. -/

/-- A response object on the heap: the `responseId` field (a primitive,
copied by value) and the `metrics` array, held as references to
metric-record cells. -/
structure RespCell where
  responseId : String
  metricRefs : List Nat
deriving Repr, DecidableEq

/-- The object heap: metric-record cells and response cells addressed by
naturals below the allocation counter `next` (reads above `next` return
junk and are never performed on valid references). -/
structure Heap where
  metricCell : Nat → MetricRecord
  respCell : Nat → RespCell
  next : Nat

/-- Allocate a fresh metric-record cell holding `d`. -/
def allocMetric (h : Heap) (d : MetricRecord) : Heap × Nat :=
  ({ h with
      metricCell := fun a => if a = h.next then d else h.metricCell a,
      next := h.next + 1 }, h.next)

/-- Allocate a fresh response cell holding `d`. -/
def allocResp (h : Heap) (d : RespCell) : Heap × Nat :=
  ({ h with
      respCell := fun a => if a = h.next then d else h.respCell a,
      next := h.next + 1 }, h.next)

/-- Overwrite the metric-record cell at address `a` (a caller-side
mutation of a metric record object). -/
def writeMetric (h : Heap) (a : Nat) (d : MetricRecord) : Heap :=
  { h with metricCell := fun a' => if a' = a then d else h.metricCell a' }

/-- Overwrite the response cell at address `a` (a caller-side mutation of
a response object). -/
def writeResp (h : Heap) (a : Nat) (d : RespCell) : Heap :=
  { h with respCell := fun a' => if a' = a then d else h.respCell a' }

/-- `model.metrics.map(metric => ({...metric}))`: allocate, for each
metric reference, a fresh cell with the same field values. -/
def copyMetricRefs : Heap → List Nat → Heap × List Nat
  | h, [] => (h, [])
  | h, a :: rest =>
    let p := allocMetric h (h.metricCell a)
    let q := copyMetricRefs p.1 rest
    (q.1, p.2 :: q.2)

/-- `payload.map(model => ({...model, metrics: ...}))`: for each response
reference, copy its metric records, then allocate a fresh response cell
with the same `responseId` and the fresh metric references. -/
def copyRespRefs : Heap → List Nat → Heap × List Nat
  | h, [] => (h, [])
  | h, r :: rest =>
    let src := h.respCell r
    let pm := copyMetricRefs h src.metricRefs
    let pr := allocResp pm.1 ⟨src.responseId, pm.2⟩
    let q := copyRespRefs pr.1 rest
    (q.1, pr.2 :: q.2)

/-- The store's `initAtId` action, restricted to the entry being replaced:
the new entry stored for the case is a deep copy of the caller's
`payload` list of response references. -/
def initAtId (h : Heap) (payload : List Nat) : Heap × List Nat :=
  copyRespRefs h payload

/-- Dereference one response reference into a plain value. -/
def readResp (h : Heap) (r : Nat) : Evaluation :=
  ⟨(h.respCell r).responseId, (h.respCell r).metricRefs.map h.metricCell⟩

/-- Dereference a whole entry (list of response references) into plain
values — the observable content of the stored entry. -/
def readEntry (h : Heap) (refs : List Nat) : List Evaluation :=
  refs.map (readResp h)

/-- Validity of a caller-owned entry: every response reference and every
metric reference it holds is an allocated address. -/
def validRefs (h : Heap) (refs : List Nat) : Prop :=
  ∀ r ∈ refs, r < h.next ∧ ∀ a ∈ (h.respCell r).metricRefs, a < h.next

/-- A small concrete heap used to exercise the deep-copy property: two
allocated cells, the response object at any address holding one metric
reference. -/
def sampleHeap : Heap :=
  ⟨fun _ => ⟨"m1", "", none, some 1⟩, fun _ => ⟨"model-1", [0]⟩, 2⟩

/-! ## Controller: edit protocol (`updateEvaluation` in EvaluationMetrics) -/

/-- The single-score persist request body
`{caseId, responseId, metricId, evaluatorId, score: value ?? 0}`;
`evaluatorId` comes from the `doctorId` URL parameter and may be null. -/
structure PersistRequest where
  caseId : String
  responseId : String
  metricId : String
  evaluatorId : Option String
  score : Int
deriving Repr, DecidableEq

/-- The observable effect of one `updateEvaluation` call: the `setEvaluation`
payload sent to the store, if any, and the persist request issued to the
backend, if any. -/
structure EditResult where
  storeCall : Option Payload
  persistCall : Option PersistRequest
deriving Repr, DecidableEq

/-- The controller's `updateEvaluation`: a non-null value outside `[1, 5]`
is discarded before anything else happens (`if (value !== null && (value < 1
|| value > 5)) return`); otherwise the store is updated optimistically and
a single persist request with `score: value ?? 0` is issued. -/
def updateEvaluation (caseId : String) (evaluatorId : Option String)
    (responseId metricId : String) (value : Option Int) : EditResult :=
  if value ≠ none ∧ (value.getD 0 < 1 ∨ 5 < value.getD 0) then
    ⟨none, none⟩
  else
    ⟨some ⟨responseId, metricId, value⟩,
     some ⟨caseId, responseId, metricId, evaluatorId, value.getD 0⟩⟩

/-! ## Controller: hydration (`initializeEvaluations`) and the adapter's
`getExistingEvaluations` -/

/-- A metric definition as held in the page's `metrics` state:
`{id, name, description}` (description already defaulted to a string). -/
structure Metric where
  id : String
  name : String
  description : String
deriving Repr, DecidableEq

/-- A model output of the active record; hydration reads only its
`responseId`. -/
structure ModelOutput where
  responseId : String
deriving Repr, DecidableEq

/-- A remote evaluation row returned by `GET cases/{id}/evaluations`:
`{model_response, metric, score}`. -/
structure RemoteEval where
  model_response : String
  metric : String
  score : Int
deriving Repr, DecidableEq

/-- The adapter's `getExistingEvaluations`: the remote fetch either
resolves with the row list or rejects; a rejection is caught inside the
adapter, logged, and degraded to the empty list (`catch { return [] }`). -/
def getExistingEvaluations (fetch : Except Unit (List RemoteEval)) : List RemoteEval :=
  match fetch with
  | .ok rows => rows
  | .error _ => []

/-- The synthetic placeholder id `model-(i+1)` used for slot `i` when the
record has no `i`-th model output (or its `responseId` is falsy). -/
def syntheticId (i : Nat) : String :=
  "model-" ++ toString (i + 1)

/-- One slot of the hydrated structure (`defaultScores[i]`): filter the
remote rows by the slot's model output (`modelEvaluations`), then per
metric take the first matching row's score via `?.score || null` — so an
absent row, and also a zero score (falsy in JS), hydrate as null. -/
def hydratedSlot (outputs : List ModelOutput) (evals : List RemoteEval)
    (metrics : List Metric) (i : Nat) : Evaluation :=
  let output := outputs.get? i
  let modelEvaluations : List RemoteEval :=
    match output with
    | some o => evals.filter (fun e => e.model_response == o.responseId)
    | none => []
  { responseId :=
      match output with
      | some o => if o.responseId = "" then syntheticId i else o.responseId
      | none => syntheticId i
    metrics := metrics.map (fun m =>
      { id := m.id
        name := m.name
        description := some m.description
        value :=
          match modelEvaluations.find? (fun e => e.metric == m.id) with
          | some e => if e.score = 0 then none else some e.score
          | none => none }) }

/-- The `defaultScores` structure built by hydration:
`Array.from({length: 3}, ...)` — always exactly three slots. -/
def defaultScores (outputs : List ModelOutput) (metrics : List Metric)
    (evals : List RemoteEval) : List Evaluation :=
  (List.range 3).map (hydratedSlot outputs evals metrics)

/-- The observable effect of one hydration run: the payload passed to the
store's bulk initialization (`initAtId`), if it was called, and whether
the hydration-level error toast was raised. -/
structure HydrationResult where
  bulkInit : Option (List Evaluation)
  errorToast : Bool
deriving Repr, DecidableEq

/-- The controller's `initializeEvaluations` body: fetch the case's
existing evaluations through the adapter (which absorbs transport
failures into `[]`), build `defaultScores` and call `initAtId` with it.
The surrounding `catch` (error toast, no `initAtId`) is reachable only if
something after the adapter call throws, which the typed embedding rules
out — in particular a rejected fetch does not reach it. -/
def initializeEvaluations (outputs : List ModelOutput) (metrics : List Metric)
    (fetch : Except Unit (List RemoteEval)) : HydrationResult :=
  let existingEvaluations := getExistingEvaluations fetch
  ⟨some (defaultScores outputs metrics existingEvaluations), false⟩

/-! ## Controller: submission (`handleSubmit`) -/

/-- One persist call issued by `handleSubmit`
(`updateSingleEvaluation({caseId, responseId, metricId, evaluatorId, score})`). -/
structure SubmitCall where
  caseId : String
  responseId : String
  metricId : String
  evaluatorId : String
  score : Int
deriving Repr, DecidableEq

/-- The progress counters of a persist response. -/
structure Progress where
  completed : Nat
  total : Nat
deriving Repr, DecidableEq

/-- A resolved persist response: `{status, progress?}`. -/
structure ApiResp where
  status : String
  progress : Option Progress
deriving Repr, DecidableEq

/-- The user-facing outcome of a submission run. -/
inductive SubmitOutcome where
  | success
  | progressMsg (completed total : Nat)
  | failure
deriving Repr, DecidableEq

/-- The observable effect of `handleSubmit`: which toast was shown and
whether `setDoneForId(id, true)` was called (the completion flag is only
ever set, never cleared, by submission). -/
structure SubmitResult where
  outcome : SubmitOutcome
  markedDone : Bool
deriving Repr, DecidableEq

/-- The filter applied to each metric record before submission:
`metric.value !== null && metric.value > 0`. -/
def keepMetric (rec : MetricRecord) : Bool :=
  match rec.value with
  | some v => decide (0 < v)
  | none => false

/-- The persist calls contributed by one response slot, in metric order. -/
def slotCalls (caseId evaluatorId : String) (ev : Evaluation) : List SubmitCall :=
  (ev.metrics.filter keepMetric).map
    (fun rec => ⟨caseId, ev.responseId, rec.id, evaluatorId, rec.value.getD 0⟩)

/-- The full `submissionPromises` list: `flatMap` over the entry's slots,
one call per kept metric record, in submission order. -/
def submissionCalls (caseId evaluatorId : String) : List Evaluation → List SubmitCall
  | [] => []
  | ev :: rest => slotCalls caseId evaluatorId ev ++ submissionCalls caseId evaluatorId rest

/-- `Promise.all` over the persist calls: resolves with the response list
in submission order when every call resolves, rejects as soon as any call
rejects. -/
def settleAll (settle : SubmitCall → Except Unit ApiResp) : List SubmitCall → Except Unit (List ApiResp)
  | [] => .ok []
  | c :: rest =>
    match settle c with
    | .error e => Except.error e
    | .ok r =>
      match settleAll settle rest with
      | .error e => Except.error e
      | .ok rs => .ok (r :: rs)

/-- The `handleSubmit` flow for the active case: missing evaluator id or
missing store entry throw into the catch (generic failure, no completion).
Otherwise the kept triples are persisted concurrently; if all resolve, the
last response alone is inspected — status `'completed'` gives the success
toast and sets the completion flag, any other status reads
`lastResult.progress.completed/total` for a partial toast (a missing
`progress`, like the missing last element of an empty result list, throws
a TypeError into the catch). Any rejected call also lands in the catch:
generic failure, flag untouched. -/
def handleSubmit (evaluatorId : Option String) (entry : Option (List Evaluation))
    (caseId : String) (settle : SubmitCall → Except Unit ApiResp) : SubmitResult :=
  match evaluatorId with
  | none => ⟨.failure, false⟩
  | some eid =>
    match entry with
    | none => ⟨.failure, false⟩
    | some evaluations =>
      match settleAll settle (submissionCalls caseId eid evaluations) with
      | .error _ => ⟨.failure, false⟩
      | .ok results =>
        match results.getLast? with
        | none => ⟨.failure, false⟩
        | some lastResult =>
          if lastResult.status = "completed" then
            ⟨.success, true⟩
          else
            match lastResult.progress with
            | some p => ⟨.progressMsg p.completed p.total, false⟩
            | none => ⟨.failure, false⟩

/-! ## Remote sync adapter: ground-truth normalization (`getRecords`) -/

/-- The normalized ground-truth shape `{findings, impressions}`. -/
structure GroundTruth where
  findings : String
  impressions : String
deriving Repr, DecidableEq

/-- The relevant fields of a successfully parsed JSON value: an object
with optional `findings` / `impressions` / `impression` string fields, or
any non-object JSON value (number, array, boolean, null, string). -/
inductive ParsedJson where
  | jobj (findings impressions impression : Option String)
  | jother
deriving Repr, DecidableEq

/-- The raw ground-truth payload as delivered by the backend: an object
(with the same optional fields), a string, or anything else (null,
number, boolean, undefined). -/
inductive GtPayload where
  | objVal (findings impressions impression : Option String)
  | strVal (s : String)
  | otherVal
deriving Repr, DecidableEq

/-- JS truthiness for an optional string field: absent and `''` are falsy. -/
def truthyStr : Option String → Option String
  | none => none
  | some s => if s = "" then none else some s

/-- `x.findings || ''` and `x.impressions || x.impression || ''` applied
to an object's fields. -/
def extractFields (findings impressions impression : Option String) : GroundTruth :=
  ⟨(truthyStr findings).getD "",
   ((truthyStr impressions).or (truthyStr impression)).getD ""⟩

/-- Field extraction from a parsed JSON value: `parsed.findings || ''` is
`''` (undefined field) whenever the parsed value is not an object. -/
def extractParsed : ParsedJson → GroundTruth
  | .jobj f imps imp => extractFields f imps imp
  | .jother => ⟨"", ""⟩

/-- The brace guard `s.trim().startsWith('\x7b')` of the source: after
discarding leading whitespace (trailing whitespace cannot affect the
first character), the first character is an opening brace (codepoint
123).  Modelled on the character list so it evaluates in proofs. -/
def startsWithBrace (s : String) : Bool :=
  match s.data.dropWhile Char.isWhitespace with
  | [] => false
  | c :: _ => c == Char.ofNat 123

/-- The ground-truth normalizer of `getRecords`, parameterized by a model
`parse` of `JSON.parse` (`none` = throws): an object is used directly; a
string is JSON-parsed only when its trimmed form starts with a brace
(parse failure is caught and the raw string becomes `findings`); any
other string becomes `findings` verbatim; anything else yields empty
fields. -/
def normalizeGroundTruth (parse : String → Option ParsedJson) : GtPayload → GroundTruth
  | .objVal f imps imp => extractFields f imps imp
  | .strVal s =>
    if startsWithBrace s then
      match parse s with
      | some v => extractParsed v
      | none => ⟨s, ""⟩
    else ⟨s, ""⟩
  | .otherVal => ⟨"", ""⟩

/-- Modelled from the spec: the claimed decision table for ground-truth
normalization — "object → use directly; string parseable as JSON → parse;
string otherwise → treat as findings; anything else → empty" — with no
leading-brace guard: every string the parser accepts is parsed. Stated
only for comparison against `normalizeGroundTruth`, which embeds the
source. -/
def claimedGroundTruth (parse : String → Option ParsedJson) : GtPayload → GroundTruth
  | .objVal f imps imp => extractFields f imps imp
  | .strVal s =>
    match parse s with
    | some v => extractParsed v
    | none => ⟨s, ""⟩
  | .otherVal => ⟨"", ""⟩

/-- A model of `JSON.parse` on the two strings the C9 counterexample
uses: `"42"` is valid JSON denoting the number 42 (a non-object value);
an unparseable string throws. -/
def parseModel (s : String) : Option ParsedJson :=
  if s = "42" then some .jother else none

/-! ## Lemmas about the metric-level store step -/

theorem setMetricValue_lookup (ms : List MetricRecord) (mid : String) (v : Option Int) :
    ((setMetricValue ms mid v).find? (fun rec => rec.id == mid)).map (fun rec => rec.value)
      = some v := by
  induction ms with
  | nil => simp [setMetricValue]
  | cons rec rest ih =>
    by_cases h : rec.id = mid
    · simp [setMetricValue, h]
    · simp only [setMetricValue, if_neg h]
      rw [List.find?_cons_of_neg _ (by simp [h])]
      exact ih

theorem setMetricValue_lookup_other (ms : List MetricRecord) (mid : String) (v : Option Int)
    (m : String) (hm : m ≠ mid) :
    (setMetricValue ms mid v).find? (fun rec => rec.id == m)
      = ms.find? (fun rec => rec.id == m) := by
  induction ms with
  | nil => simp [setMetricValue, Ne.symm hm]
  | cons rec rest ih =>
    by_cases h : rec.id = mid
    · simp only [setMetricValue, if_pos h]
      rw [List.find?_cons_of_neg _ (by simp [h, Ne.symm hm]),
        List.find?_cons_of_neg _ (by simp [h, Ne.symm hm])]
    · simp only [setMetricValue, if_neg h]
      by_cases h2 : rec.id = m
      · rw [List.find?_cons_of_pos _ (by simp [h2]), List.find?_cons_of_pos _ (by simp [h2])]
      · rw [List.find?_cons_of_neg _ (by simp [h2]), List.find?_cons_of_neg _ (by simp [h2]), ih]

theorem setMetricValue_idem (ms : List MetricRecord) (mid : String) (v : Option Int) :
    setMetricValue (setMetricValue ms mid v) mid v = setMetricValue ms mid v := by
  induction ms with
  | nil => simp [setMetricValue]
  | cons rec rest ih =>
    by_cases h : rec.id = mid
    · simp [setMetricValue, h]
    · simp [setMetricValue, h, ih]

theorem setMetricValue_ids (ms : List MetricRecord) (mid : String) (v : Option Int) :
    (setMetricValue ms mid v).map (fun rec => rec.id)
      = if ∃ rec ∈ ms, rec.id = mid then ms.map (fun rec => rec.id)
        else ms.map (fun rec => rec.id) ++ [mid] := by
  induction ms with
  | nil => simp [setMetricValue]
  | cons rec rest ih =>
    by_cases h : rec.id = mid
    · simp [setMetricValue, h]
    · simp only [setMetricValue, if_neg h, List.map_cons, ih]
      by_cases h2 : ∃ r ∈ rest, r.id = mid
      · rw [if_pos h2, if_pos (by simp [h2])]
      · rw [if_neg h2, if_neg (by simp [h, h2]), List.cons_append]

/-! ## Lemmas about the response-level store step -/

theorem setResponseSlot_lookup_self (l : List Evaluation) (p : Payload) :
    lookupTriple (setResponseSlot l p) p.responseId p.metricId = some p.value := by
  induction l with
  | nil => simp [setResponseSlot, lookupTriple]
  | cons ev rest ih =>
    by_cases h : ev.responseId = p.responseId
    · simp only [setResponseSlot, if_pos h, lookupTriple]
      rw [List.find?_cons_of_pos _ (by simp [h])]
      simp [setMetricValue_lookup]
    · simp only [setResponseSlot, if_neg h, lookupTriple] at ih ⊢
      rw [List.find?_cons_of_neg _ (by simp [h])]
      exact ih

theorem setResponseSlot_lookup_other_resp (l : List Evaluation) (p : Payload)
    (r m : String) (hr : r ≠ p.responseId) :
    lookupTriple (setResponseSlot l p) r m = lookupTriple l r m := by
  induction l with
  | nil => simp [setResponseSlot, lookupTriple, Ne.symm hr]
  | cons ev rest ih =>
    by_cases h : ev.responseId = p.responseId
    · simp only [setResponseSlot, if_pos h, lookupTriple]
      rw [List.find?_cons_of_neg _ (by simp [h, Ne.symm hr]),
        List.find?_cons_of_neg _ (by simp [h, Ne.symm hr])]
    · simp only [setResponseSlot, if_neg h, lookupTriple] at ih ⊢
      by_cases h2 : ev.responseId = r
      · rw [List.find?_cons_of_pos _ (by simp [h2]), List.find?_cons_of_pos _ (by simp [h2])]
      · rw [List.find?_cons_of_neg _ (by simp [h2]), List.find?_cons_of_neg _ (by simp [h2]), ih]

theorem setResponseSlot_lookup_other_metric (l : List Evaluation) (p : Payload)
    (m : String) (hm : m ≠ p.metricId) :
    lookupTriple (setResponseSlot l p) p.responseId m = lookupTriple l p.responseId m := by
  induction l with
  | nil => simp [setResponseSlot, lookupTriple, Ne.symm hm]
  | cons ev rest ih =>
    by_cases h : ev.responseId = p.responseId
    · simp only [setResponseSlot, if_pos h, lookupTriple]
      rw [List.find?_cons_of_pos _ (by simp [h]), List.find?_cons_of_pos _ (by simp [h])]
      simp [setMetricValue_lookup_other _ _ _ _ hm]
    · simp only [setResponseSlot, if_neg h, lookupTriple] at ih ⊢
      by_cases h2 : ev.responseId = p.responseId
      · exact absurd h2 h
      · by_cases h3 : ev.responseId = p.responseId
        · exact absurd h3 h
        · by_cases h4 : ev.responseId = p.responseId
          · exact absurd h4 h
          · rw [List.find?_cons, List.find?_cons]
            cases hfind : (ev.responseId == p.responseId) with
            | true => simp at hfind; exact absurd hfind h
            | false => exact ih

theorem setResponseSlot_idem (l : List Evaluation) (p : Payload) :
    setResponseSlot (setResponseSlot l p) p = setResponseSlot l p := by
  induction l with
  | nil => simp [setResponseSlot, setMetricValue]
  | cons ev rest ih =>
    by_cases h : ev.responseId = p.responseId
    · simp [setResponseSlot, h, setMetricValue_idem]
    · simp [setResponseSlot, h, ih]

theorem setResponseSlot_length (l : List Evaluation) (p : Payload) :
    (setResponseSlot l p).length =
      if ∃ ev ∈ l, ev.responseId = p.responseId then l.length else l.length + 1 := by
  induction l with
  | nil => simp [setResponseSlot]
  | cons ev rest ih =>
    by_cases h : ev.responseId = p.responseId
    · simp [setResponseSlot, h]
    · simp only [setResponseSlot, if_neg h, List.length_cons, ih]
      by_cases h2 : ∃ e ∈ rest, e.responseId = p.responseId
      · rw [if_pos h2, if_pos (by simp [h2])]
      · rw [if_neg h2, if_neg (by simp [h, h2])]

theorem setResponseSlot_responseIds (l : List Evaluation) (p : Payload) :
    (setResponseSlot l p).map (fun ev => ev.responseId) =
      if ∃ ev ∈ l, ev.responseId = p.responseId then l.map (fun ev => ev.responseId)
      else l.map (fun ev => ev.responseId) ++ [p.responseId] := by
  induction l with
  | nil => simp [setResponseSlot]
  | cons ev rest ih =>
    by_cases h : ev.responseId = p.responseId
    · simp [setResponseSlot, h]
    · simp only [setResponseSlot, if_neg h, List.map_cons, ih]
      by_cases h2 : ∃ e ∈ rest, e.responseId = p.responseId
      · rw [if_pos h2, if_pos (by simp [h2])]
      · rw [if_neg h2, if_neg (by simp [h, h2]), List.cons_append]

theorem wfEntry_setResponseSlot (l : List Evaluation) (p : Payload) (hwf : wfEntry l) :
    wfEntry (setResponseSlot l p) := by
  obtain ⟨hids, hmet⟩ := hwf
  constructor
  · rw [setResponseSlot_responseIds]
    by_cases h2 : ∃ e ∈ l, e.responseId = p.responseId
    · rwa [if_pos h2]
    · rw [if_neg h2]
      refine List.Nodup.append hids (List.nodup_singleton _) ?_
      intro a ha hb
      simp only [List.mem_singleton] at hb
      subst hb
      simp only [List.mem_map] at ha
      obtain ⟨ev, hev, hevid⟩ := ha
      exact h2 ⟨ev, hev, hevid⟩
  · clear hids
    induction l with
    | nil =>
      intro ev hev
      simp only [setResponseSlot, List.mem_singleton] at hev
      subst hev
      simp
    | cons e rest ih =>
      by_cases h : e.responseId = p.responseId
      · intro ev hev
        simp only [setResponseSlot, if_pos h, List.mem_cons] at hev
        rcases hev with hev | hev
        · subst hev
          simp only
          rw [setMetricValue_ids]
          by_cases h2 : ∃ rec ∈ e.metrics, rec.id = p.metricId
          · rw [if_pos h2]; exact hmet e (by simp)
          · rw [if_neg h2]
            refine List.Nodup.append (hmet e (by simp)) (List.nodup_singleton _) ?_
            intro a ha hb
            simp only [List.mem_singleton] at hb
            subst hb
            simp only [List.mem_map] at ha
            obtain ⟨rec, hrec, hrid⟩ := ha
            exact h2 ⟨rec, hrec, hrid⟩
        · exact hmet ev (by simp [hev])
      · intro ev hev
        simp only [setResponseSlot, if_neg h, List.mem_cons] at hev
        rcases hev with hev | hev
        · subst hev; exact hmet ev (by simp)
        · exact ih (fun e' he' => hmet e' (by simp [he'])) ev hev

theorem countP_le_one_of_nodup_ids (ms : List MetricRecord) (m : String)
    (h : (ms.map (fun rec => rec.id)).Nodup) :
    ms.countP (fun rec => rec.id == m) ≤ 1 := by
  induction ms with
  | nil => simp
  | cons rec rest ih =>
    simp only [List.map_cons, List.nodup_cons] at h
    by_cases hid : rec.id = m
    · rw [List.countP_cons_of_pos _ _ (by simp [hid])]
      have : rest.countP (fun r => r.id == m) = 0 := by
        rw [List.countP_eq_zero]
        intro r hr
        simp only [beq_iff_eq]
        intro hrm
        exact h.1 (by rw [← hid, ← hrm] at *; exact List.mem_map_of_mem _ hr)
      omega
    · rw [List.countP_cons_of_neg _ _ (by simp [hid])]
      exact ih h.2

theorem pairCount_eq_zero (l : List Evaluation) (r m : String)
    (h : ∀ ev ∈ l, ev.responseId ≠ r) : pairCount l r m = 0 := by
  induction l with
  | nil => rfl
  | cons ev rest ih =>
    simp only [pairCount]
    rw [if_neg (by simp [h ev (by simp)]), ih (fun e he => h e (by simp [he]))]

theorem pairCount_le_one_of_wf (l : List Evaluation) (r m : String) (hwf : wfEntry l) :
    pairCount l r m ≤ 1 := by
  obtain ⟨hids, hmet⟩ := hwf
  induction l with
  | nil => simp [pairCount]
  | cons ev rest ih =>
    simp only [List.map_cons, List.nodup_cons] at hids
    by_cases h : ev.responseId = r
    · simp only [pairCount]
      rw [if_pos (by simp [h])]
      have hz : pairCount rest r m = 0 := by
        refine pairCount_eq_zero rest r m (fun e he hr => ?_)
        exact hids.1 (by rw [← h, ← hr] at *; exact List.mem_map_of_mem _ he)
      rw [hz]
      have := countP_le_one_of_nodup_ids ev.metrics m (hmet ev (by simp))
      omega
    · simp only [pairCount]
      rw [if_neg (by simp [h])]
      simpa using ih hids.2 (fun e he => hmet e (by simp [he]))

theorem pairsOf_subset_setResponseSlot (l : List Evaluation) (p : Payload) :
    pairsOf l ⊆ pairsOf (setResponseSlot l p) := by
  induction l with
  | nil => simp [pairsOf]
  | cons ev rest ih =>
    by_cases h : ev.responseId = p.responseId
    · simp only [setResponseSlot, if_pos h, pairsOf, List.flatMap_cons]
      intro a ha
      rw [List.mem_append] at ha ⊢
      rcases ha with ha | ha
      · left
        simp only [List.mem_map] at ha ⊢
        obtain ⟨rec, hrec, hra⟩ := ha
        have hmem : rec.id ∈ (setMetricValue ev.metrics p.metricId p.value).map
            (fun r => r.id) := by
          rw [setMetricValue_ids]
          by_cases h2 : ∃ r ∈ ev.metrics, r.id = p.metricId
          · rw [if_pos h2]; exact List.mem_map_of_mem _ hrec
          · rw [if_neg h2]; exact List.mem_append_left _ (List.mem_map_of_mem _ hrec)
        simp only [List.mem_map] at hmem
        obtain ⟨rec', hrec', hid⟩ := hmem
        exact ⟨rec', hrec', by rw [← hra]; simp [hid]⟩
      · right; exact ha
    · simp only [setResponseSlot, if_neg h, pairsOf, List.flatMap_cons]
      intro a ha
      rw [List.mem_append] at ha ⊢
      rcases ha with ha | ha
      · left; exact ha
      · right; exact ih ha

/-- C4: For every sequence of setScore calls on the same (caseId,
responseId, metricId) with varying values, the final stored value for
that triple equals the value of the last call (last-write-wins); under
the store's structural well-formedness at most one metric record for
that (responseId, metricId) pair exists in the case's entry; repeating an
identical call leaves the store unchanged (idempotence); and no existing
metric record of any other pair is removed — its pair survives and its
visible value is untouched. -/
theorem setScore_last_write_wins (entry : Option (List Evaluation)) (p : Payload) :
    lookupTriple (setEvaluation entry p) p.responseId p.metricId = some p.value ∧
    setEvaluation (some (setEvaluation entry p)) p = setEvaluation entry p ∧
    (wfEntry (entry.getD defaultSlots) →
      pairCount (setEvaluation entry p) p.responseId p.metricId ≤ 1) ∧
    pairsOf (entry.getD defaultSlots) ⊆ pairsOf (setEvaluation entry p) ∧
    (∀ r m : String, (r ≠ p.responseId ∨ m ≠ p.metricId) →
      lookupTriple (setEvaluation entry p) r m = lookupTriple (entry.getD defaultSlots) r m) := by
  refine ⟨setResponseSlot_lookup_self _ _, ?_, ?_, pairsOf_subset_setResponseSlot _ _, ?_⟩
  · show setResponseSlot ((some (setResponseSlot (entry.getD defaultSlots) p)).getD defaultSlots) p
      = setResponseSlot (entry.getD defaultSlots) p
    rw [Option.getD_some, setResponseSlot_idem]
  · intro hwf
    exact pairCount_le_one_of_wf _ _ _ (wfEntry_setResponseSlot _ _ hwf)
  · intro r m hrm
    rcases hrm with hr | hm
    · exact setResponseSlot_lookup_other_resp _ _ _ _ hr
    · by_cases hr : r = p.responseId
      · subst hr; exact setResponseSlot_lookup_other_metric _ _ _ hm
      · exact setResponseSlot_lookup_other_resp _ _ _ _ hr

/-- Witness for C4 at a concrete input: a well-formed one-slot entry,
an overwriting edit of (model-1, m1), and preservation of the untouched
pair (model-1, m2). -/
theorem setScore_last_write_wins_witness :
    pairCount
      (setEvaluation (some [⟨"model-1", [⟨"m1", "", none, some 2⟩, ⟨"m2", "", none, some 3⟩]⟩])
        ⟨"model-1", "m1", some 5⟩) "model-1" "m1" ≤ 1 ∧
    lookupTriple
      (setEvaluation (some [⟨"model-1", [⟨"m1", "", none, some 2⟩, ⟨"m2", "", none, some 3⟩]⟩])
        ⟨"model-1", "m1", some 5⟩) "model-1" "m2" =
      lookupTriple [⟨"model-1", [⟨"m1", "", none, some 2⟩, ⟨"m2", "", none, some 3⟩]⟩]
        "model-1" "m2" :=
  ⟨(setScore_last_write_wins
      (some [⟨"model-1", [⟨"m1", "", none, some 2⟩, ⟨"m2", "", none, some 3⟩]⟩])
      ⟨"model-1", "m1", some 5⟩).2.2.1 (by unfold wfEntry; decide),
   (setScore_last_write_wins
      (some [⟨"model-1", [⟨"m1", "", none, some 2⟩, ⟨"m2", "", none, some 3⟩]⟩])
      ⟨"model-1", "m1", some 5⟩).2.2.2.2 "model-1" "m2" (Or.inr (by decide))⟩

/-- C5: A setScore call on a case id with no prior entry first creates
the three synthetic slots model-1..3 with empty metric lists and then
applies the edit to that entry; afterwards the edited triple is stored,
and the entry has 3 slots when the edited responseId is one of
model-1..3 and 4 slots otherwise. -/
theorem setScore_fresh_case (p : Payload) :
    setEvaluation none p = setResponseSlot defaultSlots p ∧
    (setEvaluation none p).length =
      (if p.responseId = "model-1" ∨ p.responseId = "model-2" ∨ p.responseId = "model-3"
        then 3 else 4) ∧
    lookupTriple (setEvaluation none p) p.responseId p.metricId = some p.value := by
  refine ⟨rfl, ?_, setResponseSlot_lookup_self _ _⟩
  show (setResponseSlot defaultSlots p).length = _
  rw [setResponseSlot_length]
  have hiff : (∃ ev ∈ defaultSlots, ev.responseId = p.responseId) ↔
      (p.responseId = "model-1" ∨ p.responseId = "model-2" ∨ p.responseId = "model-3") := by
    simp [defaultSlots, eq_comm]
  rw [if_congr hiff rfl rfl]
  simp [defaultSlots]

/-- C7: A user score edit whose value is a number outside [1,5] is
silently discarded at the controller's validation step — no setScore
call and no persist request is made; a null value is always accepted,
with a setScore call that clears the triple in the store (the stored
value becomes null) and a persist request carrying score 0. -/
theorem updateEvaluation_validation (caseId : String) (eid : Option String)
    (rid mid : String) :
    (∀ v : Int, (v < 1 ∨ 5 < v) →
        updateEvaluation caseId eid rid mid (some v) = ⟨none, none⟩) ∧
    updateEvaluation caseId eid rid mid none =
      ⟨some ⟨rid, mid, none⟩, some ⟨caseId, rid, mid, eid, 0⟩⟩ ∧
    (∀ entry : Option (List Evaluation),
      lookupTriple (setEvaluation entry ⟨rid, mid, none⟩) rid mid = some none) := by
  refine ⟨?_, ?_, ?_⟩
  · intro v hv
    simp [updateEvaluation, hv]
  · simp [updateEvaluation]
  · intro entry
    exact setResponseSlot_lookup_self _ _

/-- Witness for C7: the out-of-range value 6 is discarded whole. -/
theorem updateEvaluation_validation_witness :
    ((6 : Int) < 1 ∨ 5 < (6 : Int)) ∧
    updateEvaluation "c1" (some "doc") "model-1" "m1" (some 6) = ⟨none, none⟩ :=
  ⟨by decide,
   (updateEvaluation_validation "c1" (some "doc") "model-1" "m1").1 6 (by decide)⟩

/-! ## Lemmas about the submission pipeline -/

theorem keepMetric_iff (rec : MetricRecord) :
    keepMetric rec = true ↔ ∃ v : Int, rec.value = some v ∧ 0 < v := by
  cases h : rec.value with
  | none => simp [keepMetric, h]
  | some v => simp [keepMetric, h]

theorem filter_keepMetric_nil (ms : List MetricRecord)
    (hz : ∀ rec ∈ ms, ∀ v : Int, rec.value = some v → v ≤ 0) :
    ms.filter keepMetric = [] := by
  induction ms with
  | nil => rfl
  | cons rec rest ih =>
    rw [List.filter_cons]
    have hk : keepMetric rec = false := by
      cases h : rec.value with
      | none => simp [keepMetric, h]
      | some v =>
        have := hz rec (by simp) v h
        simp [keepMetric, h]
        omega
    rw [hk]
    simp only [Bool.false_eq_true, if_false]
    exact ih (fun r hr => hz r (by simp [hr]))

theorem submissionCalls_eq_nil (cid eid : String) (entry : List Evaluation)
    (hz : ∀ ev ∈ entry, ∀ rec ∈ ev.metrics, ∀ v : Int, rec.value = some v → v ≤ 0) :
    submissionCalls cid eid entry = [] := by
  induction entry with
  | nil => rfl
  | cons ev rest ih =>
    simp only [submissionCalls, slotCalls]
    rw [filter_keepMetric_nil _ (hz ev (by simp)), ih (fun e he => hz e (by simp [he]))]
    rfl

theorem mem_slotCalls (cid eid r m : String) (v : Int) (ev : Evaluation) :
    (⟨cid, r, m, eid, v⟩ : SubmitCall) ∈ slotCalls cid eid ev ↔
      (r = ev.responseId ∧ ∃ rec ∈ ev.metrics, rec.id = m ∧ rec.value = some v ∧ 0 < v) := by
  simp only [slotCalls, List.mem_map, List.mem_filter, keepMetric_iff]
  constructor
  · rintro ⟨rec, ⟨hmem, w, hw, hwpos⟩, heq⟩
    simp only [SubmitCall.mk.injEq] at heq
    obtain ⟨-, hrid, hid, -, hscore⟩ := heq
    refine ⟨hrid.symm, rec, hmem, hid, ?_, ?_⟩
    · rw [hw] at hscore ⊢
      simp only [Option.getD_some] at hscore
      rw [hscore]
    · rw [hw] at hscore
      simp only [Option.getD_some] at hscore
      rw [← hscore]; exact hwpos
  · rintro ⟨hrid, rec, hmem, hid, hval, hpos⟩
    exact ⟨rec, ⟨hmem, v, hval, hpos⟩, by rw [hid, hval, hrid]; rfl⟩

theorem mem_submissionCalls (cid eid : String) (c : SubmitCall) (entry : List Evaluation) :
    c ∈ submissionCalls cid eid entry ↔ ∃ ev ∈ entry, c ∈ slotCalls cid eid ev := by
  induction entry with
  | nil => simp [submissionCalls]
  | cons ev rest ih => simp [submissionCalls, List.mem_append, ih]

theorem slotCalls_fields (cid eid : String) (ev : Evaluation) (c : SubmitCall)
    (hc : c ∈ slotCalls cid eid ev) :
    c.caseId = cid ∧ c.evaluatorId = eid ∧ c.responseId = ev.responseId ∧ 0 < c.score := by
  simp only [slotCalls, List.mem_map, List.mem_filter, keepMetric_iff] at hc
  obtain ⟨rec, ⟨-, w, hw, hwpos⟩, heq⟩ := hc
  subst heq
  simpa [hw] using hwpos

theorem slotCalls_nodup (cid eid : String) (ev : Evaluation)
    (h : (ev.metrics.map (fun rec => rec.id)).Nodup) :
    (slotCalls cid eid ev).Nodup := by
  have hms : ev.metrics.Nodup := h.of_map
  refine List.Nodup.map_on ?_ (hms.filter _)
  intro x hx y hy hxy
  have hid : x.id = y.id := by
    have := SubmitCall.mk.inj hxy
    exact this.2.2.1
  exact List.inj_on_of_nodup_map h (List.mem_of_mem_filter hx) (List.mem_of_mem_filter hy) hid

theorem count_slotCalls_eq_zero (cid eid r m : String) (v : Int) (ev : Evaluation)
    (h : ev.responseId ≠ r) :
    (slotCalls cid eid ev).count ⟨cid, r, m, eid, v⟩ = 0 := by
  rw [List.count_eq_zero]
  intro hmem
  exact h ((mem_slotCalls cid eid r m v ev).1 hmem).1.symm

theorem count_submissionCalls_eq_zero (cid eid r m : String) (v : Int)
    (entry : List Evaluation) (h : ∀ ev ∈ entry, ev.responseId ≠ r) :
    (submissionCalls cid eid entry).count ⟨cid, r, m, eid, v⟩ = 0 := by
  induction entry with
  | nil => rfl
  | cons ev rest ih =>
    simp only [submissionCalls, List.count_append]
    rw [count_slotCalls_eq_zero cid eid r m v ev (h ev (by simp)),
      ih (fun e he => h e (by simp [he]))]

theorem count_submissionCalls_le_one (cid eid r m : String) (v : Int)
    (entry : List Evaluation) (hwf : wfEntry entry) :
    (submissionCalls cid eid entry).count ⟨cid, r, m, eid, v⟩ ≤ 1 := by
  obtain ⟨hids, hmet⟩ := hwf
  induction entry with
  | nil => simp [submissionCalls]
  | cons ev rest ih =>
    simp only [List.map_cons, List.nodup_cons] at hids
    simp only [submissionCalls, List.count_append]
    by_cases h : ev.responseId = r
    · have hz : (submissionCalls cid eid rest).count ⟨cid, r, m, eid, v⟩ = 0 := by
        refine count_submissionCalls_eq_zero cid eid r m v rest (fun e he hr => ?_)
        exact hids.1 (by rw [← h, ← hr] at *; exact List.mem_map_of_mem _ he)
      rw [hz]
      have hnd := slotCalls_nodup cid eid ev (hmet ev (by simp))
      have := List.nodup_iff_count_le_one.1 hnd (⟨cid, r, m, eid, v⟩ : SubmitCall)
      omega
    · rw [count_slotCalls_eq_zero cid eid r m v ev h]
      simpa using ih hids.2 (fun e he => hmet e (by simp [he]))

theorem settleAll_ok_of_forall (settle : SubmitCall → Except Unit ApiResp)
    (calls : List SubmitCall) (hok : ∀ c ∈ calls, ∃ r, settle c = .ok r) :
    ∃ rs, settleAll settle calls = .ok rs := by
  induction calls with
  | nil => exact ⟨[], rfl⟩
  | cons a rest ih =>
    obtain ⟨r, hr⟩ := hok a (by simp)
    obtain ⟨rs, hrs⟩ := ih (fun c hc => hok c (by simp [hc]))
    exact ⟨r :: rs, by simp [settleAll, hr, hrs]⟩

theorem settleAll_getLast (settle : SubmitCall → Except Unit ApiResp) :
    ∀ (calls : List SubmitCall) (rs : List ApiResp) (c : SubmitCall),
      settleAll settle calls = .ok rs → calls.getLast? = some c →
      ∃ r, settle c = .ok r ∧ rs.getLast? = some r := by
  intro calls
  induction calls with
  | nil => intro rs c _ hc; simp at hc
  | cons a rest ih =>
    intro rs c h hc
    simp only [settleAll] at h
    cases hsa : settle a with
    | error e => rw [hsa] at h; exact absurd h (by simp)
    | ok r0 =>
      rw [hsa] at h
      cases hrest : settleAll settle rest with
      | error e => rw [hrest] at h; exact absurd h (by simp)
      | ok rs0 =>
        rw [hrest] at h
        have hrs : rs = r0 :: rs0 := by
          cases h; rfl
        subst hrs
        cases rest with
        | nil =>
          have hc' : a = c := by simpa using hc
          subst hc'
          have hrs0 : rs0 = [] := by
            simp only [settleAll] at hrest
            cases hrest; rfl
          subst hrs0
          exact ⟨r0, hsa, rfl⟩
        | cons b rest' =>
          rw [List.getLast?_cons_cons] at hc
          obtain ⟨r, hr, hlast⟩ := ih rs0 c hrest hc
          refine ⟨r, hr, ?_⟩
          cases rs0 with
          | nil => simp at hlast
          | cons r1 rs1 => rw [List.getLast?_cons_cons]; exact hlast

theorem settleAll_error_of_mem (settle : SubmitCall → Except Unit ApiResp) :
    ∀ (calls : List SubmitCall) (c : SubmitCall),
      c ∈ calls → settle c = .error () → settleAll settle calls = .error () := by
  intro calls
  induction calls with
  | nil => intro c hc; simp at hc
  | cons a rest ih =>
    intro c hc herr
    simp only [settleAll]
    cases hsa : settle a with
    | error e => rfl
    | ok r0 =>
      rcases List.mem_cons.1 hc with hca | hcr
      · subst hca; rw [hsa] at herr; exact absurd herr (by simp)
      · rw [ih c hcr herr]

/-- C10: A submission of a case whose score matrix entry exists but
contains no triple with a non-null value strictly greater than 0 issues
zero persist calls; reading the status of the nonexistent last result
throws, so the catch branch reports a generic failure and the completion
flag is not set — an all-null or all-zero case can never be marked done
by submission. -/
theorem handleSubmit_no_positive_scores (eid caseId : String) (entry : List Evaluation)
    (settle : SubmitCall → Except Unit ApiResp)
    (hz : ∀ ev ∈ entry, ∀ rec ∈ ev.metrics, ∀ v : Int, rec.value = some v → v ≤ 0) :
    submissionCalls caseId eid entry = [] ∧
    handleSubmit (some eid) (some entry) caseId settle = ⟨.failure, false⟩ := by
  have hnil := submissionCalls_eq_nil caseId eid entry hz
  refine ⟨hnil, ?_⟩
  simp only [handleSubmit, hnil]
  rfl

/-- Witness for C10: one null-valued and one zero-valued record. -/
theorem handleSubmit_no_positive_scores_witness :
    (∀ ev ∈ [(⟨"model-1", [⟨"m1", "", none, none⟩]⟩ : Evaluation),
        ⟨"model-2", [⟨"m1", "", none, some 0⟩]⟩],
      ∀ rec ∈ ev.metrics, ∀ v : Int, rec.value = some v → v ≤ 0) ∧
    handleSubmit (some "doc")
      (some [⟨"model-1", [⟨"m1", "", none, none⟩]⟩, ⟨"model-2", [⟨"m1", "", none, some 0⟩]⟩])
      "c1" (fun _ => Except.ok ⟨"completed", none⟩) = ⟨.failure, false⟩ :=
  ⟨by decide,
   (handleSubmit_no_positive_scores "doc" "c1"
      [⟨"model-1", [⟨"m1", "", none, none⟩]⟩, ⟨"model-2", [⟨"m1", "", none, some 0⟩]⟩]
      (fun _ => Except.ok ⟨"completed", none⟩) (by decide)).2⟩

/-- C1: In a submission run in which at least one persist call is issued
and every call resolves, the completion flag is set if and only if the
last resolved call's response has status 'completed'; when that status is
not 'completed' (and progress counters are present, as the partial
message requires) a partial-progress message built from the last
response's completed/total counters is reported and the flag is not set;
and if any persist call rejects the whole submission is reported as
failed with a generic message and the case is not marked done. -/
theorem handleSubmit_outcome_aggregation (eid caseId : String) (entry : List Evaluation)
    (settle : SubmitCall → Except Unit ApiResp)
    (hne : submissionCalls caseId eid entry ≠ [])
    (hok : ∀ c ∈ submissionCalls caseId eid entry, ∃ r, settle c = .ok r) :
    (∃ c last, (submissionCalls caseId eid entry).getLast? = some c ∧
      settle c = Except.ok last ∧
      ((handleSubmit (some eid) (some entry) caseId settle).markedDone = true ↔
        last.status = "completed") ∧
      (last.status = "completed" →
        handleSubmit (some eid) (some entry) caseId settle = ⟨.success, true⟩) ∧
      (∀ p : Progress, last.status ≠ "completed" → last.progress = some p →
        handleSubmit (some eid) (some entry) caseId settle =
          ⟨.progressMsg p.completed p.total, false⟩)) ∧
    (∀ settle' : SubmitCall → Except Unit ApiResp,
      (∃ c ∈ submissionCalls caseId eid entry, settle' c = Except.error ()) →
      handleSubmit (some eid) (some entry) caseId settle' = ⟨.failure, false⟩) := by
  constructor
  · obtain ⟨rs, hrs⟩ := settleAll_ok_of_forall settle _ hok
    obtain ⟨c, hc⟩ := List.getLast?_isSome.2 hne |> Option.isSome_iff_exists.1
    obtain ⟨last, hlast, hrslast⟩ := settleAll_getLast settle _ rs c hrs hc
    refine ⟨c, last, hc, hlast, ?_, ?_, ?_⟩
    · simp only [handleSubmit, hrs, hrslast]
      by_cases hst : last.status = "completed"
      · simp [hst]
      · simp only [if_neg hst]
        cases last.progress <;> simp [hst]
    · intro hst
      simp only [handleSubmit, hrs, hrslast, if_pos hst]
    · intro p hst hp
      simp only [handleSubmit, hrs, hrslast, if_neg hst, hp]
  · intro settle' ⟨c, hc, herr⟩
    have := settleAll_error_of_mem settle' _ c hc herr
    simp only [handleSubmit, this]

/-- Witness for C1: one positive score, and a last (only) call resolving
with status 'completed' — the run succeeds and marks the case done. -/
theorem handleSubmit_outcome_aggregation_witness :
    submissionCalls "c1" "doc" [⟨"model-1", [⟨"m1", "", none, some 4⟩]⟩] ≠ [] ∧
    handleSubmit (some "doc") (some [⟨"model-1", [⟨"m1", "", none, some 4⟩]⟩]) "c1"
      (fun _ => Except.ok ⟨"completed", none⟩) = ⟨.success, true⟩ := by
  have h := handleSubmit_outcome_aggregation "doc" "c1"
    [⟨"model-1", [⟨"m1", "", none, some 4⟩]⟩]
    (fun _ => Except.ok ⟨"completed", none⟩) (by decide)
    (fun c _ => ⟨⟨"completed", none⟩, rfl⟩)
  refine ⟨by decide, ?_⟩
  obtain ⟨⟨c, last, -, hsettle, -, hcomp, -⟩, -⟩ := h
  have hl : last = ⟨"completed", none⟩ := by
    simpa using hsettle.symm
  exact hcomp (by rw [hl])

/-- C6: For every submission of a case whose score matrix entry exists
(and is structurally well-formed), every issued persist call carries the
case id, the evaluator id and a strictly positive score, and for every
(responseId, metricId, value) triple there is exactly one call — at most
one occurrence, with an occurrence exactly when the entry holds that
triple with a non-null value strictly greater than 0; triples with value
null or 0 produce no call. -/
theorem handleSubmit_flattening (cid eid : String) (entry : List Evaluation)
    (hwf : wfEntry entry) :
    (∀ c ∈ submissionCalls cid eid entry,
      c.caseId = cid ∧ c.evaluatorId = eid ∧ 0 < c.score) ∧
    ∀ (r m : String) (v : Int),
      (submissionCalls cid eid entry).count ⟨cid, r, m, eid, v⟩ ≤ 1 ∧
      ((⟨cid, r, m, eid, v⟩ : SubmitCall) ∈ submissionCalls cid eid entry ↔
        ∃ ev ∈ entry, ev.responseId = r ∧ ∃ rec ∈ ev.metrics,
          rec.id = m ∧ rec.value = some v ∧ 0 < v) := by
  constructor
  · intro c hc
    obtain ⟨ev, -, hcs⟩ := (mem_submissionCalls cid eid c entry).1 hc
    obtain ⟨h1, h2, -, h4⟩ := slotCalls_fields cid eid ev c hcs
    exact ⟨h1, h2, h4⟩
  · intro r m v
    refine ⟨count_submissionCalls_le_one cid eid r m v entry hwf, ?_⟩
    rw [mem_submissionCalls]
    constructor
    · rintro ⟨ev, hev, hmem⟩
      obtain ⟨hr, rec, hrec, hid, hval, hpos⟩ := (mem_slotCalls cid eid r m v ev).1 hmem
      exact ⟨ev, hev, hr.symm, rec, hrec, hid, hval, hpos⟩
    · rintro ⟨ev, hev, hr, rec, hrec, hid, hval, hpos⟩
      exact ⟨ev, hev, (mem_slotCalls cid eid r m v ev).2 ⟨hr.symm, rec, hrec, hid, hval, hpos⟩⟩

/-- Witness for C6 at the spec's scenario: scores
model-1: m1=4, m2=null and model-2: m1=0 — the triple (model-1, m1, 4)
occurs exactly once and is the only call shape the entry admits. -/
theorem handleSubmit_flattening_witness :
    wfEntry [⟨"model-1", [⟨"m1", "", none, some 4⟩, ⟨"m2", "", none, none⟩]⟩,
      ⟨"model-2", [⟨"m1", "", none, some 0⟩]⟩] ∧
    ((submissionCalls "c1" "doc"
        [⟨"model-1", [⟨"m1", "", none, some 4⟩, ⟨"m2", "", none, none⟩]⟩,
          ⟨"model-2", [⟨"m1", "", none, some 0⟩]⟩]).count ⟨"c1", "model-1", "m1", "doc", 4⟩ ≤ 1 ∧
      ((⟨"c1", "model-1", "m1", "doc", 4⟩ : SubmitCall) ∈ submissionCalls "c1" "doc"
          [⟨"model-1", [⟨"m1", "", none, some 4⟩, ⟨"m2", "", none, none⟩]⟩,
            ⟨"model-2", [⟨"m1", "", none, some 0⟩]⟩] ↔
        ∃ ev ∈ [(⟨"model-1", [⟨"m1", "", none, some 4⟩, ⟨"m2", "", none, none⟩]⟩ : Evaluation),
            ⟨"model-2", [⟨"m1", "", none, some 0⟩]⟩], ev.responseId = "model-1" ∧
          ∃ rec ∈ ev.metrics, rec.id = "m1" ∧ rec.value = some 4 ∧ (0 : Int) < 4)) :=
  ⟨by unfold wfEntry; decide,
   (handleSubmit_flattening "c1" "doc"
      [⟨"model-1", [⟨"m1", "", none, some 4⟩, ⟨"m2", "", none, none⟩]⟩,
        ⟨"model-2", [⟨"m1", "", none, some 0⟩]⟩]
      (by unfold wfEntry; decide)).2 "model-1" "m1" 4⟩

/-! ## Hydration: C2 and C3 -/

theorem find?_filter_model_response (evals : List RemoteEval) (rid mid : String) :
    (evals.filter (fun e => e.model_response == rid)).find? (fun e => e.metric == mid)
      = evals.find? (fun e => e.model_response == rid && e.metric == mid) := by
  induction evals with
  | nil => rfl
  | cons e rest ih =>
    by_cases h1 : e.model_response = rid
    · by_cases h2 : e.metric = mid
      · rw [List.filter_cons_of_pos (by simp [h1]),
          List.find?_cons_of_pos _ (by simp [h2]),
          List.find?_cons_of_pos _ (by simp [h1, h2])]
      · rw [List.filter_cons_of_pos (by simp [h1]),
          List.find?_cons_of_neg _ (by simp [h2]),
          List.find?_cons_of_neg _ (by simp [h2]), ih]
    · rw [List.filter_cons_of_neg (by simp [h1]),
        List.find?_cons_of_neg _ (by simp [h1]), ih]

theorem hydratedSlot_declarative (outputs : List ModelOutput) (evals : List RemoteEval)
    (metrics : List Metric) (i : Nat) :
    hydratedSlot outputs evals metrics i =
      { responseId :=
          match outputs.get? i with
          | some o => if o.responseId = "" then syntheticId i else o.responseId
          | none => syntheticId i
        metrics := metrics.map (fun mtr =>
          { id := mtr.id
            name := mtr.name
            description := some mtr.description
            value :=
              match outputs.get? i with
              | none => none
              | some o =>
                match evals.find?
                    (fun e => e.model_response == o.responseId && e.metric == mtr.id) with
                | none => none
                | some e => if e.score = 0 then none else some e.score }) } := by
  unfold hydratedSlot
  cases houtput : outputs.get? i with
  | none => simp
  | some o =>
    simp only
    congr 1
    refine List.map_congr_left (fun mtr _ => ?_)
    simp only [MetricRecord.mk.injEq, true_and]
    rw [find?_filter_model_response]
    cases hfind : evals.find?
        (fun e => e.model_response == o.responseId && e.metric == mtr.id) <;> simp

/-- C2 counterexample: hydrating with a single remote evaluation
(model-1, m1, score 0) — a matching evaluation exists, so the claim
requires the slot's m1 value to equal its score 0, but `?.score || null`
treats the zero score as falsy and the code stores null. -/
theorem hydration_zero_score_counterexample :
    (⟨"model-1", "m1", 0⟩ : RemoteEval).model_response = "model-1" ∧
    (⟨"model-1", "m1", 0⟩ : RemoteEval).metric = "m1" ∧
    lookupTriple (defaultScores [⟨"model-1"⟩] [⟨"m1", "Accuracy", "d"⟩]
      [⟨"model-1", "m1", 0⟩]) "model-1" "m1" = some none ∧
    lookupTriple (defaultScores [⟨"model-1"⟩] [⟨"m1", "Accuracy", "d"⟩]
      [⟨"model-1", "m1", 0⟩]) "model-1" "m1" ≠ some (some 0) :=
  ⟨rfl, rfl, by decide, by decide⟩

/-- C2 (amended): hydration always passes exactly 3 response slots to
bulkInitialize; slot i carries the i-th model output's responseId (or the
synthetic model-(i+1) when that output is absent or its id empty), and
for each metric the slot's record value equals the score of the first
remote evaluation matching that output's responseId and the metric id —
provided the slot has an underlying model output and the matching score
is nonzero — and is null otherwise (a zero score hydrates as null, and a
slot without an underlying output is all-null). -/
theorem hydration_initial_values (outputs : List ModelOutput) (metrics : List Metric)
    (evals : List RemoteEval) :
    (defaultScores outputs metrics evals).length = 3 ∧
    ∀ i : Nat, i < 3 →
      (defaultScores outputs metrics evals).get? i = some
        { responseId :=
            match outputs.get? i with
            | some o => if o.responseId = "" then syntheticId i else o.responseId
            | none => syntheticId i
          metrics := metrics.map (fun mtr =>
            { id := mtr.id
              name := mtr.name
              description := some mtr.description
              value :=
                match outputs.get? i with
                | none => none
                | some o =>
                  match evals.find?
                      (fun e => e.model_response == o.responseId && e.metric == mtr.id) with
                  | none => none
                  | some e => if e.score = 0 then none else some e.score }) } := by
  constructor
  · simp [defaultScores]
  · intro i hi
    rw [defaultScores, List.get?_map, List.get?_range hi]
    exact congrArg some (hydratedSlot_declarative outputs evals metrics i)

/-- Witness for C2 at the spec's scenario: metrics m1, m2 and one remote
evaluation (model-1, m1, 4) — slot 0 (model-1) hydrates to m1=4, m2=null. -/
theorem hydration_initial_values_witness :
    (0 : Nat) < 3 ∧
    (defaultScores [⟨"model-1"⟩, ⟨"model-2"⟩, ⟨"model-3"⟩]
        [⟨"m1", "M1", "d1"⟩, ⟨"m2", "M2", "d2"⟩]
        [⟨"model-1", "m1", 4⟩]).get? 0 =
      some ⟨"model-1", [⟨"m1", "M1", some "d1", some 4⟩, ⟨"m2", "M2", some "d2", none⟩]⟩ :=
  ⟨by decide,
   (hydration_initial_values [⟨"model-1"⟩, ⟨"model-2"⟩, ⟨"model-3"⟩]
      [⟨"m1", "M1", "d1"⟩, ⟨"m2", "M2", "d2"⟩]
      [⟨"model-1", "m1", 4⟩]).2 0 (by decide)⟩

/-- C3 counterexample: when the remote fetch of existing evaluations
rejects, the adapter's own catch degrades the failure to an empty list,
so hydration proceeds: bulkInitialize IS called (the claim says it is
not) and no error notification is raised (the claim says one is). -/
theorem hydration_fetch_failure_counterexample :
    (initializeEvaluations [⟨"model-1"⟩] [⟨"m1", "Accuracy", "d"⟩]
      (Except.error ())).bulkInit ≠ none ∧
    (initializeEvaluations [⟨"model-1"⟩] [⟨"m1", "Accuracy", "d"⟩]
      (Except.error ())).errorToast = false := by
  refine ⟨by decide, by decide⟩

/-- C3 (amended): a transport failure of the remote fetch is absorbed by
`getExistingEvaluations` (which returns the empty list), so hydration
proceeds for the case: bulkInitialize is called with the fully-populated
all-null structure built from zero remote rows, and no error
notification is raised; the hydration-level catch (abort, store
untouched, toast) is reserved for errors thrown after the fetch. -/
theorem hydration_fetch_failure_proceeds (outputs : List ModelOutput)
    (metrics : List Metric) :
    initializeEvaluations outputs metrics (Except.error ()) =
      ⟨some (defaultScores outputs metrics []), false⟩ ∧
    ∀ entry : List Evaluation,
      (initializeEvaluations outputs metrics (Except.error ())).bulkInit = some entry →
      ∀ ev ∈ entry, ∀ rec ∈ ev.metrics, rec.value = none := by
  refine ⟨rfl, ?_⟩
  intro entry hentry ev hev rec hrec
  have hentry' : entry = defaultScores outputs metrics [] := by
    simpa [initializeEvaluations, getExistingEvaluations] using hentry.symm
  subst hentry'
  simp only [defaultScores, List.mem_map] at hev
  obtain ⟨i, -, hslot⟩ := hev
  subst hslot
  simp only [hydratedSlot, List.mem_map] at hrec
  obtain ⟨mtr, -, hmtr⟩ := hrec
  subst hmtr
  cases outputs.get? i <;> simp

/-- Witness for C3's amended theorem: a concrete failing fetch whose
resulting all-null entry is passed to bulkInitialize. -/
theorem hydration_fetch_failure_proceeds_witness :
    (initializeEvaluations [⟨"model-1"⟩] [⟨"m1", "Accuracy", "d"⟩]
        (Except.error ())).bulkInit =
      some (defaultScores [⟨"model-1"⟩] [⟨"m1", "Accuracy", "d"⟩] []) ∧
    (⟨"m1", "Accuracy", some "d", none⟩ : MetricRecord) ∈
      (hydratedSlot [⟨"model-1"⟩] [] [⟨"m1", "Accuracy", "d"⟩] 0).metrics ∧
    (⟨"m1", "Accuracy", some "d", none⟩ : MetricRecord).value = none :=
  ⟨by decide, by decide,
   (hydration_fetch_failure_proceeds [⟨"model-1"⟩] [⟨"m1", "Accuracy", "d"⟩]).2
    (defaultScores [⟨"model-1"⟩] [⟨"m1", "Accuracy", "d"⟩] []) (by decide)
    (hydratedSlot [⟨"model-1"⟩] [] [⟨"m1", "Accuracy", "d"⟩] 0) (by decide)
    ⟨"m1", "Accuracy", some "d", none⟩ (by decide)⟩

/-! ## Ground-truth normalization: C9 -/

/-- C9 counterexample: the string "42" is parseable as JSON (the number
42), so the claimed decision table parses it and extracts empty
findings/impressions, but the code's leading-brace guard routes it to the
plain-text branch, putting the raw string into findings — the two tables
disagree. -/
theorem groundTruth_nonobject_json_counterexample :
    parseModel "42" = some ParsedJson.jother ∧
    normalizeGroundTruth parseModel (.strVal "42") = ⟨"42", ""⟩ ∧
    claimedGroundTruth parseModel (.strVal "42") = ⟨"", ""⟩ ∧
    normalizeGroundTruth parseModel (.strVal "42") ≠
      claimedGroundTruth parseModel (.strVal "42") := by
  refine ⟨rfl, by decide, rfl, by decide⟩

/-- C9 (amended): the adapter normalizes a ground-truth payload by this
decision table — an object is used directly (findings/impressions
extracted); a string whose trimmed form starts with a brace and parses as
JSON is parsed and its findings/impressions extracted; any other string —
including strings that are valid JSON but not brace-led — is treated as
plain text placed entirely in findings with empty impressions; anything
else yields empty findings and impressions; a malformed brace-led string
(parse failure) is recovered as plain text, never raising an error. The
code agrees with the claimed guard-free table exactly when the parser
accepts only brace-led strings. -/
theorem groundTruth_decision_table (parse : String → Option ParsedJson) :
    (∀ f imps imp : Option String,
      normalizeGroundTruth parse (.objVal f imps imp) = extractFields f imps imp) ∧
    (∀ (s : String) (v : ParsedJson), startsWithBrace s = true → parse s = some v →
      normalizeGroundTruth parse (.strVal s) = extractParsed v) ∧
    (∀ s : String, startsWithBrace s = true → parse s = none →
      normalizeGroundTruth parse (.strVal s) = ⟨s, ""⟩) ∧
    (∀ s : String, startsWithBrace s = false →
      normalizeGroundTruth parse (.strVal s) = ⟨s, ""⟩) ∧
    normalizeGroundTruth parse .otherVal = ⟨"", ""⟩ ∧
    ((∀ s : String, (parse s).isSome = true → startsWithBrace s = true) →
      ∀ p : GtPayload, normalizeGroundTruth parse p = claimedGroundTruth parse p) := by
  refine ⟨fun f imps imp => rfl, ?_, ?_, ?_, rfl, ?_⟩
  · intro s v hs hv
    simp [normalizeGroundTruth, hs, hv]
  · intro s hs hv
    simp [normalizeGroundTruth, hs, hv]
  · intro s hs
    simp [normalizeGroundTruth, hs]
  · intro hguard p
    cases p with
    | objVal f imps imp => rfl
    | otherVal => rfl
    | strVal s =>
      cases hs : startsWithBrace s with
      | true => simp [normalizeGroundTruth, claimedGroundTruth, hs]
      | false =>
        cases hv : parse s with
        | none => simp [normalizeGroundTruth, claimedGroundTruth, hs, hv]
        | some v =>
          have := hguard s (by simp [hv])
          rw [this] at hs
          exact absurd hs (by simp)

/-- Witness for C9's amended theorem: a brace-led literal goes through
the parse branch, a bare literal through the plain-text branch. -/
theorem groundTruth_decision_table_witness :
    (startsWithBrace "\x7bx" = true) ∧
    (startsWithBrace "42" = false) ∧
    normalizeGroundTruth parseModel (.strVal "\x7bx") = ⟨"\x7bx", ""⟩ ∧
    normalizeGroundTruth parseModel (.strVal "42") = ⟨"42", ""⟩ :=
  ⟨by decide, by decide,
   (groundTruth_decision_table parseModel).2.2.1 "\x7bx" (by decide) (by decide),
   (groundTruth_decision_table parseModel).2.2.2.1 "42" (by decide)⟩


/-! ## Deep-copy isolation of initAtId: C8 -/

theorem copyMetricRefs_spec (ms : List Nat) : ∀ h : Heap, (∀ a ∈ ms, a < h.next) →
    h.next ≤ (copyMetricRefs h ms).1.next ∧
    (copyMetricRefs h ms).1.respCell = h.respCell ∧
    (∀ b : Nat, b < h.next → (copyMetricRefs h ms).1.metricCell b = h.metricCell b) ∧
    (∀ b ∈ (copyMetricRefs h ms).2, h.next ≤ b ∧ b < (copyMetricRefs h ms).1.next) ∧
    (copyMetricRefs h ms).2.map (copyMetricRefs h ms).1.metricCell = ms.map h.metricCell := by
  induction ms with
  | nil =>
    intro h _
    exact ⟨le_refl _, rfl, fun b _ => rfl, by simp [copyMetricRefs], by simp [copyMetricRefs]⟩
  | cons a rest ih =>
    intro h hval
    have hanext : a < h.next := hval a (by simp)
    simp only [copyMetricRefs, allocMetric]
    set h1 : Heap := { h with
      metricCell := fun b => if b = h.next then h.metricCell a else h.metricCell b,
      next := h.next + 1 } with hh1
    have hrest : ∀ b ∈ rest, b < h1.next := by
      intro b hb
      have := hval b (by simp [hb])
      simp only [hh1]
      omega
    obtain ⟨ihnext, ihresp, ihpres, ihrefs, ihread⟩ := ih h1 hrest
    have h1next : h1.next = h.next + 1 := rfl
    refine ⟨by omega, ?_, ?_, ?_, ?_⟩
    · rw [ihresp]
    · intro b hb
      rw [ihpres b (by omega)]
      show (if b = h.next then h.metricCell a else h.metricCell b) = h.metricCell b
      rw [if_neg (by omega)]
    · intro b hb
      simp only [List.mem_cons] at hb
      rcases hb with hb | hb
      · subst hb; exact ⟨le_refl _, by omega⟩
      · have := ihrefs b hb
        constructor <;> omega
    · simp only [List.map_cons]
      rw [List.cons_eq_cons]
      constructor
      · rw [ihpres h.next (by omega)]
        show (if h.next = h.next then h.metricCell a else h.metricCell h.next) = h.metricCell a
        rw [if_pos rfl]
      · rw [ihread]
        refine List.map_congr_left (fun b hb => ?_)
        show (if b = h.next then h.metricCell a else h.metricCell b) = h.metricCell b
        rw [if_neg (by have := hval b (by simp [hb]); omega)]

theorem copyRespRefs_spec (R : List Nat) : ∀ h : Heap, validRefs h R →
    h.next ≤ (copyRespRefs h R).1.next ∧
    (∀ b : Nat, b < h.next → (copyRespRefs h R).1.metricCell b = h.metricCell b ∧
      (copyRespRefs h R).1.respCell b = h.respCell b) ∧
    (∀ r ∈ (copyRespRefs h R).2, h.next ≤ r ∧
      ∀ a ∈ ((copyRespRefs h R).1.respCell r).metricRefs, h.next ≤ a) ∧
    readEntry (copyRespRefs h R).1 (copyRespRefs h R).2 = readEntry h R := by
  induction R with
  | nil =>
    intro h _
    exact ⟨le_refl _, fun b _ => ⟨rfl, rfl⟩, by simp [copyRespRefs], by simp [copyRespRefs]⟩
  | cons r rest ih =>
    intro h hval
    obtain ⟨hr, hmr⟩ := hval r (by simp)
    obtain ⟨pmnext, pmresp, pmpres, pmrefs, pmread⟩ :=
      copyMetricRefs_spec (h.respCell r).metricRefs h hmr
    simp only [copyRespRefs, allocResp]
    set pm1 : Heap := (copyMetricRefs h (h.respCell r).metricRefs).1 with hpm1
    set pm2 : List Nat := (copyMetricRefs h (h.respCell r).metricRefs).2 with hpm2
    set cell : RespCell := ⟨(h.respCell r).responseId, pm2⟩ with hcell
    set h2 : Heap := { pm1 with
      respCell := fun b => if b = pm1.next then cell else pm1.respCell b,
      next := pm1.next + 1 } with hh2
    have h2next : h2.next = pm1.next + 1 := rfl
    have h2metric : ∀ b, h2.metricCell b = pm1.metricCell b := fun _ => rfl
    have h2resp : ∀ b, b ≠ pm1.next → h2.respCell b = pm1.respCell b := by
      intro b hb
      show (if b = pm1.next then cell else pm1.respCell b) = pm1.respCell b
      rw [if_neg hb]
    have h2respAt : h2.respCell pm1.next = cell := by
      show (if pm1.next = pm1.next then cell else pm1.respCell pm1.next) = cell
      rw [if_pos rfl]
    have hval2 : validRefs h2 rest := by
      intro r' hr'
      obtain ⟨hr'lt, hmr'⟩ := hval r' (by simp [hr'])
      have hrespeq : h2.respCell r' = h.respCell r' := by
        rw [h2resp r' (by omega), pmresp]
      refine ⟨by omega, ?_⟩
      rw [hrespeq]
      intro a ha
      have := hmr' a ha
      omega
    obtain ⟨qnext, qpres, qrefs, qread⟩ := ih h2 hval2
    refine ⟨by omega, ?_, ?_, ?_⟩
    · intro b hb
      obtain ⟨qm, qr⟩ := qpres b (by omega)
      constructor
      · rw [qm, h2metric, pmpres b hb]
      · rw [qr, h2resp b (by omega), pmresp]
    · intro r' hr'
      simp only [List.mem_cons] at hr'
      rcases hr' with hr' | hr'
      · subst hr'
        refine ⟨by omega, ?_⟩
        obtain ⟨-, qr⟩ := qpres pm1.next (by omega)
        rw [qr, h2respAt]
        intro a ha
        simp only [hcell] at ha
        exact (pmrefs a ha).1
      · obtain ⟨hge, hrefs⟩ := qrefs r' hr'
        exact ⟨by omega, fun a ha => by have := hrefs a ha; omega⟩
    · simp only [readEntry, List.map_cons]
      rw [List.cons_eq_cons]
      constructor
      · obtain ⟨-, qr⟩ := qpres pm1.next (by omega)
        simp only [readResp]
        rw [qr, h2respAt]
        simp only [hcell]
        have hmaps : List.map (copyRespRefs h2 rest).1.metricCell pm2 =
            List.map pm1.metricCell pm2 :=
          List.map_congr_left (fun b hb => by
            obtain ⟨hge, hlt⟩ := pmrefs b hb
            obtain ⟨qm, -⟩ := qpres b (by omega)
            rw [qm, h2metric])
        rw [Evaluation.mk.injEq]
        exact ⟨rfl, by rw [hmaps, pmread]⟩
      · have : readEntry (copyRespRefs h2 rest).1 (copyRespRefs h2 rest).2 = readEntry h2 rest :=
          qread
        rw [show List.map (readResp (copyRespRefs h2 rest).1) (copyRespRefs h2 rest).2 =
            readEntry (copyRespRefs h2 rest).1 (copyRespRefs h2 rest).2 from rfl, qread]
        refine List.map_congr_left (fun r' hr' => ?_)
        obtain ⟨hr'lt, hmr'⟩ := hval r' (by simp [hr'])
        have hrespeq : h2.respCell r' = h.respCell r' := by
          rw [h2resp r' (by omega), pmresp]
        show (⟨(h2.respCell r').responseId,
            (h2.respCell r').metricRefs.map h2.metricCell⟩ : Evaluation) =
          ⟨(h.respCell r').responseId, (h.respCell r').metricRefs.map h.metricCell⟩
        rw [hrespeq, Evaluation.mk.injEq]
        refine ⟨rfl, List.map_congr_left (fun a ha => ?_)⟩
        rw [h2metric, pmpres a (hmr' a ha)]

/-- C8: After bulkInitialize(caseId, R) (the store's `initAtId`), the
stored entry dereferences to the same values as R (structural equality),
but shares no mutable cell with R: overwriting any caller-owned metric
record cell or response cell (any address allocated before the call)
leaves the dereferenced stored entry unchanged. -/
theorem initAtId_deep_copy (h : Heap) (payload : List Nat) (hval : validRefs h payload) :
    readEntry (initAtId h payload).1 (initAtId h payload).2 = readEntry h payload ∧
    (∀ a : Nat, a < h.next → ∀ d : MetricRecord,
      readEntry (writeMetric (initAtId h payload).1 a d) (initAtId h payload).2 =
        readEntry (initAtId h payload).1 (initAtId h payload).2) ∧
    (∀ a : Nat, a < h.next → ∀ d : RespCell,
      readEntry (writeResp (initAtId h payload).1 a d) (initAtId h payload).2 =
        readEntry (initAtId h payload).1 (initAtId h payload).2) := by
  obtain ⟨hnext, hpres, hrefs, hread⟩ := copyRespRefs_spec payload h hval
  refine ⟨hread, ?_, ?_⟩
  · intro a ha d
    show List.map (readResp (writeMetric (copyRespRefs h payload).1 a d))
        (copyRespRefs h payload).2 =
      List.map (readResp (copyRespRefs h payload).1) (copyRespRefs h payload).2
    refine List.map_congr_left (fun r hr => ?_)
    obtain ⟨hge, hmrefs⟩ := hrefs r hr
    show (⟨((copyRespRefs h payload).1.respCell r).responseId,
        ((copyRespRefs h payload).1.respCell r).metricRefs.map
          (fun b => if b = a then d else (copyRespRefs h payload).1.metricCell b)⟩ : Evaluation)
      = ⟨((copyRespRefs h payload).1.respCell r).responseId,
        ((copyRespRefs h payload).1.respCell r).metricRefs.map
          (copyRespRefs h payload).1.metricCell⟩
    rw [Evaluation.mk.injEq]
    refine ⟨rfl, List.map_congr_left (fun b hb => ?_)⟩
    rw [if_neg (by have := hmrefs b hb; omega)]
  · intro a ha d
    show List.map (readResp (writeResp (copyRespRefs h payload).1 a d))
        (copyRespRefs h payload).2 =
      List.map (readResp (copyRespRefs h payload).1) (copyRespRefs h payload).2
    refine List.map_congr_left (fun r hr => ?_)
    obtain ⟨hge, -⟩ := hrefs r hr
    show (⟨((if r = a then d else (copyRespRefs h payload).1.respCell r)).responseId,
        ((if r = a then d else (copyRespRefs h payload).1.respCell r)).metricRefs.map
          (copyRespRefs h payload).1.metricCell⟩ : Evaluation)
      = ⟨((copyRespRefs h payload).1.respCell r).responseId,
        ((copyRespRefs h payload).1.respCell r).metricRefs.map
          (copyRespRefs h payload).1.metricCell⟩
    rw [if_neg (by omega)]

/-- Witness for C8 on `sampleHeap`: copying the one-response entry [1]
preserves its values, and mutating the caller's metric record at
address 0 afterwards does not change the stored entry. -/
theorem initAtId_deep_copy_witness :
    validRefs sampleHeap [1] ∧
    readEntry (initAtId sampleHeap [1]).1 (initAtId sampleHeap [1]).2 =
      readEntry sampleHeap [1] ∧
    readEntry (writeMetric (initAtId sampleHeap [1]).1 0 ⟨"m1", "", none, some 5⟩)
        (initAtId sampleHeap [1]).2 =
      readEntry (initAtId sampleHeap [1]).1 (initAtId sampleHeap [1]).2 :=
  ⟨by unfold validRefs; decide,
   (initAtId_deep_copy sampleHeap [1] (by unfold validRefs; decide)).1,
   (initAtId_deep_copy sampleHeap [1] (by unfold validRefs; decide)).2.1 0 (by decide)
     ⟨"m1", "", none, some 5⟩⟩

end IndicXray
